import Mathlib

/-!
Shallow embedding of the result-acquisition and ranking pipeline of the
searchme repository (src/main.py, class ImprovedSearch, and src/app.py,
class AppleSearch), together with proofs of the specification claims.

External library behaviour (requests, BeautifulSoup, json, urllib.parse,
datetime) is embedded as follows:
- HTTP responses are explicit values; the attempts an HTTP session would
  produce are passed to the fetch loop as a list of planned outcomes,
  one per retry attempt.
- BeautifulSoup extraction is modelled at the granularity the code reads
  it: a document is the list of organic-result containers (plus, for
  app.py, an optional info-box node), each container carrying the text
  the code extracts from it (title element text, first hyperlink href,
  snippet element text, date element text).
- urllib.parse.urlparse netloc extraction, str.lower, str.split, the
  substring operator, re.search for the three date patterns, and
  datetime.strptime / strftime for the formats the code uses are
  implemented directly.
- Python dict-based caches are association lists; time is an integer
  parameter.
All functions are total: a Python code path that raises is modelled with
an Except value, and a try/except block is modelled by the corresponding
match on that value.
-/

/-- Boolean test that the pattern list is a character-for-character match
of a leading segment of the second list. -/
def matchesAt : List Char → List Char → Bool
  | [], _ => true
  | _ :: _, [] => false
  | p :: ps, h :: hs => p == h && matchesAt ps hs

/-- Boolean substring search over character lists: true when the first
argument occurs contiguously inside the second. -/
def hasSubstrChars (sub : List Char) : List Char → Bool
  | [] => sub.isEmpty
  | h :: hs => matchesAt sub (h :: hs) || hasSubstrChars sub hs

/-- Embedding of the Python expression sub in hay (substring containment).
The empty string is contained in every string, as in Python. -/
def strContains (hay sub : String) : Bool :=
  hasSubstrChars sub.data hay.data

/-- Embedding of Python str.lower: lowercase every character. -/
def strLower (s : String) : String :=
  String.mk (s.data.map Char.toLower)

/-- Split into maximal non-whitespace words, dropping empty fragments;
the accumulator holds the current word reversed. -/
def wordsAux (cur : List Char) : List Char → List String
  | [] => if cur.isEmpty then [] else [String.mk cur.reverse]
  | c :: cs =>
    if c.isWhitespace then
      if cur.isEmpty then wordsAux [] cs
      else String.mk cur.reverse :: wordsAux [] cs
    else wordsAux (c :: cur) cs

/-- Embedding of Python str.split() with no arguments: split on runs of
whitespace and drop empty fragments. -/
def pySplit (s : String) : List String :=
  wordsAux [] s.data

/-- Split a character list on every occurrence of a separator character,
keeping empty fragments, as Python str.split with a one-character
separator does. -/
def splitOnChar (sep : Char) : List Char → List (List Char)
  | [] => [[]]
  | c :: cs =>
    if c == sep then [] :: splitOnChar sep cs
    else
      match splitOnChar sep cs with
      | [] => [[c]]
      | g :: gs => (c :: g) :: gs

/-- The fragment of the list before the next occurrence of the marker,
or the whole list when the marker does not occur again. -/
def upToMarker (marker : List Char) : List Char → List Char
  | [] => []
  | c :: cs =>
    if matchesAt marker (c :: cs) then []
    else c :: upToMarker marker cs

/-- Characters permitted in a URL scheme after the leading letter,
per urllib.parse. -/
def isSchemeChar (c : Char) : Bool :=
  c.isAlphanum || c == '+' || c == '-' || c == '.'

/-- Consume scheme characters up to a colon; returns the remainder after
the colon when the prefix up to the first colon is a valid scheme body. -/
def takeSchemeRest : List Char → Option (List Char)
  | [] => none
  | c :: rest =>
    if c == ':' then some rest
    else if isSchemeChar c then takeSchemeRest rest
    else none

/-- Strip a leading scheme: in urllib.parse a scheme is a letter followed
by letters, digits, plus, minus or dot, terminated by a colon. Returns
the text after the colon, or none when the URL has no valid scheme. -/
def splitSchemeRest (cs : List Char) : Option (List Char) :=
  match cs with
  | [] => none
  | c :: rest => if c.isAlpha then takeSchemeRest rest else none

/-- Embedding of urllib.parse.urlparse(url).netloc: after stripping any
scheme, the netloc is present only when the remainder starts with two
slashes, and extends to the next slash, question mark or hash. -/
def urlparseNetloc (url : String) : String :=
  let rest := match splitSchemeRest url.data with
    | some r => r
    | none => url.data
  match rest with
  | '/' :: '/' :: r =>
    String.mk (r.takeWhile (fun c => !(c == '/' || c == '?' || c == '#')))
  | _ => ""

/-- Month abbreviations in calendar order, as produced by strftime %b and
matched by the first date regex of ImprovedSearch._extract_date. -/
def monthAbbrevs : List String :=
  ["Jan", "Feb", "Mar", "Apr", "May", "Jun",
   "Jul", "Aug", "Sep", "Oct", "Nov", "Dec"]

/-- Match one of the given literal alternatives at the head of the
character list, returning the matched literal and the remainder. -/
def tryAbbrevs : List String → List Char → Option (String × List Char)
  | [], _ => none
  | a :: rest, cs =>
    if matchesAt a.data cs then some (a, cs.drop a.length)
    else tryAbbrevs rest cs

/-- Match a month abbreviation at the head of the list ignoring case, as
strptime %b does, returning the month number and the remainder. The
first argument is the month number of the head of the remaining
alternatives. -/
def parseMonthFrom : Nat → List String → List Char → Option (Nat × List Char)
  | _, [], _ => none
  | m, a :: rest, cs =>
    if matchesAt (a.data.map Char.toLower) (cs.map Char.toLower) then
      some (m, cs.drop a.length)
    else parseMonthFrom (m + 1) rest cs

/-- Case-insensitive month-abbreviation match for strptime %b. -/
def parseMonthCI (cs : List Char) : Option (Nat × List Char) :=
  parseMonthFrom 1 monthAbbrevs cs

/-- Take exactly n decimal digits from the front of the list, returning
the digits and the remainder; fails when fewer digits are available. -/
def takeExactDigits : Nat → List Char → Option (List Char × List Char)
  | 0, cs => some ([], cs)
  | _ + 1, [] => none
  | n + 1, c :: cs =>
    if c.isDigit then
      match takeExactDigits n cs with
      | some (ds, rest) => some (c :: ds, rest)
      | none => none
    else none

/-- Numeric value of a list of decimal digit characters. -/
def natOfDigits (ds : List Char) : Nat :=
  ds.foldl (fun acc c => acc * 10 + (c.toNat - '0'.toNat)) 0

/-- Gregorian leap-year test, as in Python datetime. -/
def isLeapYear (y : Nat) : Bool :=
  y % 4 == 0 && (y % 100 != 0 || y % 400 == 0)

/-- Number of days in the given month of the given year. -/
def daysInMonth (y m : Nat) : Nat :=
  if m == 2 then (if isLeapYear y then 29 else 28)
  else if m == 4 || m == 6 || m == 9 || m == 11 then 30
  else 31

/-- Days in the year strictly before the first day of month m. -/
def daysBeforeMonth (y m : Nat) : Nat :=
  (List.range (m - 1)).foldl (fun acc i => acc + daysInMonth y (i + 1)) 0

/-- Days strictly before January 1 of year y in the proleptic Gregorian
calendar, as in Python date.toordinal. -/
def daysBeforeYear (y : Nat) : Nat :=
  365 * (y - 1) + (y - 1) / 4 - (y - 1) / 100 + (y - 1) / 400

/-- Proleptic Gregorian ordinal of a (year, month, day), with day one of
year one mapping to 1, matching Python date.toordinal. -/
def toOrdinal (y m d : Nat) : Nat :=
  daysBeforeYear y + daysBeforeMonth y m + d

/-- Zero-pad a numeral to two digits, as strftime %d does. -/
def pad2 (n : Nat) : String :=
  if n < 10 then "0" ++ toString n else toString n

/-- Rendering of a valid (year, month, day) in the strftime format
%b %d, %Y used by ImprovedSearch._extract_date. -/
def formatDisplayDate (y m d : Nat) : String :=
  (monthAbbrevs.getD (m - 1) "") ++ " " ++ pad2 d ++ ", " ++ toString y

/-- Lowercase ASCII letter test, the regex character class a through z. -/
def isLowerAZ (c : Char) : Bool :=
  'a' ≤ c && c ≤ 'z'

/-- Match the tail of the first date pattern of
ImprovedSearch._extract_date after a day of the given digit width:
one whitespace, a month abbreviation, a greedy run of lowercase letters,
one whitespace and four digits. Returns the full matched text. -/
def matchP1Day (width : Nat) (cs : List Char) : Option (List Char) :=
  match takeExactDigits width cs with
  | none => none
  | some (day, r1) =>
    match r1 with
    | [] => none
    | w1 :: r2 =>
      if w1.isWhitespace then
        match tryAbbrevs monthAbbrevs r2 with
        | none => none
        | some (mon, r3) =>
          let lowers := r3.takeWhile isLowerAZ
          match r3.dropWhile isLowerAZ with
          | [] => none
          | w2 :: r4 =>
            if w2.isWhitespace then
              match takeExactDigits 4 r4 with
              | none => none
              | some (year, _) =>
                some (day ++ w1 :: mon.data ++ lowers ++ w2 :: year)
            else none
      else none

/-- Match the first date regex, day month-name year, at this position.
The one-or-two-digit day is greedy: two digits are tried first. -/
def matchP1At (cs : List Char) : Option (List Char) :=
  (matchP1Day 2 cs).orElse (fun _ => matchP1Day 1 cs)

/-- Match the second date regex, ISO year-month-day with fixed widths,
at this position. -/
def matchP2At (cs : List Char) : Option (List Char) :=
  match takeExactDigits 4 cs with
  | none => none
  | some (y, r1) =>
    match r1 with
    | '-' :: r2 =>
      match takeExactDigits 2 r2 with
      | none => none
      | some (mo, r3) =>
        match r3 with
        | '-' :: r4 =>
          match takeExactDigits 2 r4 with
          | none => none
          | some (d, _) => some (y ++ '-' :: mo ++ '-' :: d)
        | _ => none
    | _ => none

/-- Match the third date regex with fixed day and month digit widths:
digits, slash, digits, slash, four digits. -/
def matchP3With (a b : Nat) (cs : List Char) : Option (List Char) :=
  match takeExactDigits a cs with
  | none => none
  | some (d1, r1) =>
    match r1 with
    | '/' :: r2 =>
      match takeExactDigits b r2 with
      | none => none
      | some (d2, r3) =>
        match r3 with
        | '/' :: r4 =>
          match takeExactDigits 4 r4 with
          | none => none
          | some (y, _) => some (d1 ++ '/' :: d2 ++ '/' :: y)
        | _ => none
    | _ => none

/-- Match the third date regex, month/day/year, at this position. Both
one-or-two-digit groups are greedy, giving the regex backtracking order
(2,2), (2,1), (1,2), (1,1). -/
def matchP3At (cs : List Char) : Option (List Char) :=
  (matchP3With 2 2 cs).orElse fun _ =>
    (matchP3With 2 1 cs).orElse fun _ =>
      (matchP3With 1 2 cs).orElse fun _ =>
        matchP3With 1 1 cs

/-- Leftmost-match search: embedding of re.search, trying the pattern at
each successive start position. -/
def searchAt (matchHere : List Char → Option (List Char)) :
    List Char → Option (List Char)
  | [] => matchHere []
  | c :: rest =>
    match matchHere (c :: rest) with
    | some m => some m
    | none => searchAt matchHere rest

/-- Embedding of datetime.strptime(s, "%Y-%m-%d"): the whole string must
be four digits, a dash, one or two digits, a dash, one or two digits,
and the field values must form a valid calendar date with year at least
one. Returns (year, month, day). -/
def parseIsoDate (s : String) : Option (Nat × Nat × Nat) :=
  match splitOnChar '-' s.data with
  | [ys, ms, ds] =>
    if ys.all Char.isDigit && ms.all Char.isDigit && ds.all Char.isDigit &&
       ys.length == 4 && decide (1 ≤ ms.length) && decide (ms.length ≤ 2) &&
       decide (1 ≤ ds.length) && decide (ds.length ≤ 2) then
      let y := natOfDigits ys
      let m := natOfDigits ms
      let d := natOfDigits ds
      if 1 ≤ y && 1 ≤ m && m ≤ 12 && 1 ≤ d && d ≤ daysInMonth y m then
        some (y, m, d)
      else none
    else none
  | _ => none

/-- Embedding of the try block of ImprovedSearch._extract_date: attempt
to reparse the matched text as an ISO date and reformat it as
%b %d, %Y; on failure return the raw matched text. -/
def normalizeMatchedDate (s : String) : String :=
  match parseIsoDate s with
  | some (y, m, d) => formatDisplayDate y m d
  | none => s

/-- Embedding of ImprovedSearch._extract_date: search the three date
regexes in order over the snippet text; on the first pattern with a
match anywhere, return the (possibly ISO-normalized) matched text;
otherwise none. -/
def extractDate (text : String) : Option String :=
  match searchAt matchP1At text.data with
  | some m => some (normalizeMatchedDate (String.mk m))
  | none =>
    match searchAt matchP2At text.data with
    | some m => some (normalizeMatchedDate (String.mk m))
    | none =>
      match searchAt matchP3At text.data with
      | some m => some (normalizeMatchedDate (String.mk m))
      | none => none

/-- Day component parser for strptime %d: two digits valued 01 to 31, or
a single digit 1 to 9, greedy, with the continuation tried at both
widths. The continuation receives the remainder after the day. -/
def parseDay2Then (cs : List Char) (k : Nat → List Char → Option Int) : Option Int :=
  let two :=
    match takeExactDigits 2 cs with
    | some (ds, rest) =>
      let v := natOfDigits ds
      if 1 ≤ v && v ≤ 31 then
        match k v rest with
        | some r => some r
        | none => none
      else none
    | none => none
  match two with
  | some r => some r
  | none =>
    match takeExactDigits 1 cs with
    | some (ds, rest) =>
      let v := natOfDigits ds
      if 1 ≤ v && v ≤ 9 then k v rest else none
    | none => none

/-- Embedding of datetime.strptime(s, "%b %d, %Y") followed by
date.toordinal: case-insensitive month abbreviation, whitespace, a day,
a comma, whitespace, a four-digit year; the whole string must be
consumed and the date must be valid. Returns the proleptic Gregorian
ordinal. -/
def parseDisplayDate (s : String) : Option Int :=
  match parseMonthCI s.data with
  | none => none
  | some (m, r1) =>
    let r1b := r1.dropWhile Char.isWhitespace
    if r1.length == r1b.length then none
    else
      parseDay2Then r1b (fun d r2 =>
        match r2 with
        | ',' :: r3 =>
          let r3b := r3.dropWhile Char.isWhitespace
          if r3.length == r3b.length then none
          else
            match takeExactDigits 4 r3b with
            | some (ys, rest) =>
              if rest.isEmpty then
                let y := natOfDigits ys
                if 1 ≤ y && d ≤ daysInMonth y m then
                  some (Int.ofNat (toOrdinal y m d))
                else none
              else none
            | none => none
        | _ => none)

/-- Ordered category keyword table of ImprovedSearch._categorize_result
(src/main.py); Python dict iteration follows insertion order. -/
def mainCategoryKeywords : List (String × List String) :=
  [("news", ["news", "breaking", "latest", "report", "update"]),
   ("shopping", ["shop", "buy", "price", "deal", "amazon", "store"]),
   ("social", ["facebook", "twitter", "instagram", "linkedin", "reddit"]),
   ("video", ["youtube", "video", "watch", "stream", "vimeo"]),
   ("academic", ["research", "study", "paper", "journal", ".edu"]),
   ("official", ["official", "gov", "organization", ".gov", ".org"]),
   ("tech", ["technology", "software", "hardware", "review", "digital"])]

/-- Ordered category keyword table of AppleSearch._categorize_result
(src/app.py). -/
def appCategoryKeywords : List (String × List String) :=
  [("news", ["news", "article", "blog", "press"]),
   ("shopping", ["shop", "store", "buy", "price"]),
   ("social", ["facebook.com", "twitter.com", "instagram.com", "linkedin.com"]),
   ("video", ["youtube.com", "vimeo.com", "watch", "video"]),
   ("academic", ["edu", "academic", "research", "study"]),
   ("official", ["gov", "official", "organization"]),
   ("forums", ["reddit.com", "quora.com", "forum", "discussion"]),
   ("tech", ["tech", "gadget", "review"])]

/-- Shared categorization loop: return the first category one of whose
keywords occurs in the domain or in the text, or general when none
matches. -/
def firstMatchingCategory (domain text : String) :
    List (String × List String) → String
  | [] => "general"
  | (c, kws) :: rest =>
    if kws.any (fun k => strContains domain k || strContains text k) then c
    else firstMatchingCategory domain text rest

/-- Embedding of ImprovedSearch._categorize_result: the domain is the
lowercased netloc of the url, the text is the lowercased title and
snippet joined by a space. -/
def mainCategorize (url title snippet : String) : String :=
  firstMatchingCategory (strLower (urlparseNetloc url))
    (strLower title ++ " " ++ strLower snippet) mainCategoryKeywords

/-- Embedding of AppleSearch._categorize_result, which reads only the url
and the title. -/
def appCategorize (url title : String) : String :=
  firstMatchingCategory (strLower (urlparseNetloc url)) (strLower title)
    appCategoryKeywords

/-- Boolean stating that no keyword of the table occurs in the domain or
in the text, the negation of every match condition of the
categorization loop. -/
def noCategoryMatch (domain text : String)
    (table : List (String × List String)) : Bool :=
  table.all (fun p =>
    p.2.all (fun k => !(strContains domain k) && !(strContains text k)))

/-- The fixed category enumeration of the specification. -/
def categoryEnum : List String :=
  ["news", "shopping", "social", "video", "academic", "official",
   "forums", "tech", "general"]

/-- One organic-result container as the parsers read it: the title
element text (none when no heading element is found), the href of the
first hyperlink (none when there is no hyperlink or no href attribute),
the snippet element text (none when no snippet container is found), and
the date element text (none when absent; read only by the app.py
parser). -/
structure Container where
  titleText : Option String
  href : Option String
  snippetText : Option String
  dateText : Option String
  deriving DecidableEq, Repr

/-- The info-box node of app.py as _extract_info_box reads it: title
text, description text and image src, each possibly absent. -/
structure InfoBoxSrc where
  title : Option String
  description : Option String
  imageSrc : Option String
  deriving DecidableEq, Repr

/-- An HTTP response together with the library-parsed views of its body
that the code consumes: the organic-result containers and optional
info-box node BeautifulSoup would extract from the text, and the
suggestion list that json parsing of the text would yield (none when
that parse raises). -/
structure Response where
  status : Nat
  text : String
  doc : List Container
  infoSrc : Option InfoBoxSrc
  suggestData : Option (List String)
  deriving DecidableEq, Repr

/-- Outcome of one HTTP attempt inside a retry loop: either a response
or a requests exception with its message. -/
inductive Attempt where
  | resp (r : Response)
  | exn (msg : String)
  deriving DecidableEq, Repr

/-- Attempt outcome that is an HTTP response with a non-200 status. -/
def attemptIsNon200 : Attempt → Bool
  | Attempt.resp r => r.status != 200
  | Attempt.exn _ => false

/-- Embedding of the SearchResult class of src/main.py. -/
structure SearchResult where
  title : String
  url : String
  snippet : String
  category : String
  date : Option String
  favicon : String
  score : Int
  deriving DecidableEq, Repr

/-- Embedding of the Python expression building display_url: the first
60 characters followed by an ellipsis when the url is longer than 60
characters, the url unchanged otherwise. -/
def displayUrlOf (url : String) : String :=
  if url.length > 60 then String.mk (url.data.take 60) ++ "..." else url

/-- Favicon URL built from the result url, as in both source files. -/
def faviconOf (url : String) : String :=
  "https://www.google.com/s2/favicons?domain=" ++ url

/-- Embedding of SearchResult.to_dict output (src/main.py): the
serialized record returned to the caller of ImprovedSearch.search. -/
structure ResultDict where
  title : String
  url : String
  display_url : String
  snippet : String
  category : String
  date : Option String
  favicon : String
  score : Int
  type : String
  deriving DecidableEq, Repr

/-- Embedding of SearchResult.to_dict: serialization hard-codes the type
field to the string regular. -/
def SearchResult.toDict (r : SearchResult) : ResultDict :=
  { title := r.title, url := r.url, display_url := displayUrlOf r.url,
    snippet := r.snippet, category := r.category, date := r.date,
    favicon := r.favicon, score := r.score, type := "regular" }

/-- A result dict of app.py. Info-box dicts carry only title,
description, image_url and type; the remaining fields model keys absent
from such dicts and are never read by the code on that branch. -/
structure AppResult where
  type : String
  title : String
  description : String
  imageUrl : Option String
  url : String
  display_url : String
  snippet : String
  favicon : String
  category : String
  date : Option String
  score : Int
  deriving DecidableEq, Repr

/-- Embedding of the redirect-wrapper unwrapping of
ImprovedSearch._parse_results: a url starting with the wrapper marker is
split on the marker, the second fragment is split on ampersands and its
first fragment kept. -/
def unwrapRedirect (url : String) : String :=
  if matchesAt "/url?q=".data url.data then
    String.mk ((upToMarker "/url?q=".data (url.data.drop 7)).takeWhile
      (fun c => c != '&'))
  else url

/-- Embedding of the per-container body of ImprovedSearch._parse_results:
skip when no heading element; skip when no hyperlink or falsy href;
unwrap redirect hrefs; tolerate a missing snippet container as an empty
string; then build the record only when title, url and snippet are all
non-empty. -/
def mainParseCandidate (c : Container) : Option SearchResult :=
  match c.titleText with
  | none => none
  | some title =>
    match c.href with
    | none => none
    | some href =>
      if href = "" then none
      else
        let url := unwrapRedirect href
        let snippet := c.snippetText.getD ""
        if title ≠ "" ∧ url ≠ "" ∧ snippet ≠ "" then
          some { title := title, url := url, snippet := snippet,
                 category := mainCategorize url title snippet,
                 date := extractDate snippet,
                 favicon := faviconOf url, score := 0 }
        else none

/-- Embedding of ImprovedSearch._parse_results over the whole document:
each container is processed independently and failures skip only that
candidate. -/
def mainParseResults (doc : List Container) : List SearchResult :=
  doc.filterMap mainParseCandidate

/-- Embedding of AppleSearch._extract_info_box: absent node gives none;
otherwise title and description default to the empty string and the
image url is kept only when present. -/
def appExtractInfoBox (src : Option InfoBoxSrc) : Option AppResult :=
  match src with
  | none => none
  | some s =>
    some { type := "info_box", title := s.title.getD "",
           description := s.description.getD "",
           imageUrl := s.imageSrc,
           url := "", display_url := "", snippet := "", favicon := "",
           category := "", date := none, score := 0 }

/-- Embedding of the per-container body of AppleSearch._parse_results:
the snippet defaults to the empty string; the candidate is skipped only
when the href is absent or empty or the heading element is absent. -/
def appParseCandidate (c : Container) : Option AppResult :=
  let snippet := c.snippetText.getD ""
  match c.href, c.titleText with
  | some url, some title =>
    if url = "" then none
    else
      some { type := "regular", title := title, description := "",
             imageUrl := none, url := url,
             display_url := displayUrlOf url, snippet := snippet,
             favicon := faviconOf url,
             category := appCategorize url title,
             date := c.dateText, score := 0 }
  | _, _ => none

/-- Embedding of AppleSearch._parse_results: the info box, when
extracted, is emitted first, followed by the organic results in
document order. -/
def appParseResults (infoSrc : Option InfoBoxSrc) (doc : List Container) :
    List AppResult :=
  (appExtractInfoBox infoSrc).toList ++ doc.filterMap appParseCandidate

/-- Loop body of ImprovedSearch._fetch_with_retry over the planned
attempt outcomes: a 200 response returns immediately; any other status
only logs (with extra delay for 429 and 403) and continues; a requests
exception is remembered as the last error and the loop continues. After
exhaustion the last network error is raised when one occurred, and
otherwise a generic exception is raised. -/
def mainFetchGo (genericMsg : String) :
    List Attempt → Option String → Except String Response
  | [], none => Except.error genericMsg
  | [], some e => Except.error e
  | Attempt.resp r :: rest, last =>
    if r.status == 200 then Except.ok r else mainFetchGo genericMsg rest last
  | Attempt.exn e :: rest, _ => mainFetchGo genericMsg rest (some e)

/-- Embedding of ImprovedSearch._fetch_with_retry. The attempts list
holds the outcome each successive HTTP attempt would produce, so its
length is the max_retries bound; an error value models the exception the
Python code raises. -/
def mainFetchWithRetry (url : String) (attempts : List Attempt) :
    Except String Response :=
  mainFetchGo
    ("Failed to fetch " ++ url ++ " after " ++ toString attempts.length ++
     " attempts")
    attempts none

/-- Loop body of AppleSearch._fetch_with_retry: a 200 response returns
immediately; any other status only logs and continues; a requests
exception is re-raised when it happens on the final attempt and is
otherwise swallowed. Exhaustion without a success falls through to
return None. -/
def appFetchGo : List Attempt → Except String (Option Response)
  | [] => Except.ok none
  | Attempt.resp r :: rest =>
    if r.status == 200 then Except.ok (some r) else appFetchGo rest
  | Attempt.exn e :: rest =>
    if rest.isEmpty then Except.error e else appFetchGo rest

/-- Embedding of AppleSearch._fetch_with_retry; the attempts list holds
one planned outcome per attempt, so its length is max_retries. -/
def appFetchWithRetry (attempts : List Attempt) :
    Except String (Option Response) :=
  appFetchGo attempts

/-- Embedding of the score computation of ImprovedSearch._rank_results
for one result. The parameter now is the current time of
datetime.now() expressed as a proleptic Gregorian ordinal day count. -/
def computeMainScore (now : Int) (query : String) (r : SearchResult) : Int :=
  let queryTerms := pySplit (strLower query)
  let titleLower := strLower r.title
  let s1 : Int := if strContains titleLower (strLower query) then 30 else 0
  let s2 : Int :=
    10 * (queryTerms.filter (fun t => strContains titleLower t)).length
  let domain := urlparseNetloc r.url
  let s3 : Int :=
    if [".edu", ".gov", ".org"].any (fun t => strContains domain t) then 15
    else 0
  let s4 : Int := if (splitOnChar '.' domain.data).length == 2 then 5 else 0
  let snippetLower := strLower r.snippet
  let s5 : Int :=
    5 * (queryTerms.filter (fun t => strContains snippetLower t)).length
  let s6 : Int :=
    match r.date with
    | none => 0
    | some d =>
      if d = "" then 0
      else
        match parseDisplayDate d with
        | none => 0
        | some ord =>
          let daysOld := now - ord
          if daysOld < 30 then 20 else if daysOld < 90 then 10 else 0
  let s7 : Int := if r.category ∈ ["news", "official", "academic"] then 10 else 0
  s1 + s2 + s3 + s4 + s5 + s6 + s7

/-- Embedding of the score computation of AppleSearch._rank_results for
one regular result. -/
def computeAppScore (query : String) (r : AppResult) : Int :=
  let keywords := pySplit (strLower query)
  let titleLower := strLower r.title
  let snippetLower := strLower r.snippet
  let s1 : Int := if strContains titleLower (strLower query) then 20 else 0
  let s2 : Int := if strContains snippetLower (strLower query) then 10 else 0
  let titleKeywords : Int :=
    (keywords.filter (fun w => strContains titleLower w)).length
  let snippetKeywords : Int :=
    (keywords.filter (fun w => strContains snippetLower w)).length
  let s3 : Int := titleKeywords * 3 + snippetKeywords * 2
  let s4 : Int := if strContains (r.date.getD "") "2024" then 10 else 0
  let domain := urlparseNetloc r.url
  let s5 : Int :=
    if [".edu", ".gov", ".org"].any (fun t => strContains domain t) then 8
    else 0
  let s6 : Int := if r.category ∈ ["news", "official", "tech"] then 5 else 0
  s1 + s2 + s3 + s4 + s5 + s6

/-- Stable insertion into a list sorted by descending score: the new
element, which originally precedes every element of the list, is placed
before the first element whose score does not exceed its own. -/
def insertByScoreDesc (score : α → Int) (x : α) : List α → List α
  | [] => [x]
  | y :: ys =>
    if score y ≤ score x then x :: y :: ys
    else y :: insertByScoreDesc score x ys

/-- Stable descending sort by score. Python sorted is a stable sort, and
with reverse set it yields the unique stable order that is descending
on the key; this insertion sort computes exactly that order. -/
def sortByScoreDesc (score : α → Int) : List α → List α
  | [] => []
  | x :: xs => insertByScoreDesc score x (sortByScoreDesc score xs)

/-- The score-assignment pass of ImprovedSearch._rank_results: every
result receives its computed score. -/
def mainScored (now : Int) (query : String) (results : List SearchResult) :
    List SearchResult :=
  results.map (fun r => { r with score := computeMainScore now query r })

/-- Embedding of ImprovedSearch._rank_results: assign scores, then sort
descending by score with Python stable sorted. -/
def mainRankResults (now : Int) (query : String)
    (results : List SearchResult) : List SearchResult :=
  sortByScoreDesc SearchResult.score (mainScored now query results)

/-- The score-assignment pass of AppleSearch._rank_results: info boxes
receive the fixed high-priority score 50 and are exempt from scoring,
every other result receives its computed score. -/
def appScored (query : String) (results : List AppResult) : List AppResult :=
  results.map (fun r =>
    if r.type == "info_box" then { r with score := 50 }
    else { r with score := computeAppScore query r })

/-- Embedding of AppleSearch._rank_results: assign scores, then return
the info-box records in original order followed by the regular records
sorted descending by score with Python stable sorted. -/
def appRank (query : String) (results : List AppResult) : List AppResult :=
  let scored := appScored query results
  let infoBoxes := scored.filter (fun r => r.type == "info_box")
  let regular :=
    sortByScoreDesc AppResult.score (scored.filter (fun r => r.type == "regular"))
  infoBoxes ++ regular

/-- The in-memory cache of ImprovedSearch: a dict from key to a pair of
payload and expiry time. -/
abbrev MemCache (α : Type) := List (String × α × Int)

/-- Dict key deletion: removes the binding for the key. -/
def cacheErase (c : MemCache α) (key : String) : MemCache α :=
  c.filter (fun e => e.1 ≠ key)

/-- Embedding of ImprovedSearch._save_to_cache on the in-memory path:
store the payload under the key with expiry now plus the ttl. -/
def saveToCache (c : MemCache α) (key : String) (data : α)
    (now ttl : Int) : MemCache α :=
  (key, data, now + ttl) :: cacheErase c key

/-- Embedding of ImprovedSearch._get_from_cache on the in-memory path:
a stored entry is returned while the current time is strictly before
its expiry; an expired entry is deleted on this read and absence is
reported. Returns the result and the cache after the read. -/
def getFromCache (c : MemCache α) (key : String) (now : Int) :
    Option α × MemCache α :=
  match c.lookup key with
  | none => (none, c)
  | some (data, expire) =>
    if now < expire then (some data, c) else (none, cacheErase c key)

/-- Embedding of ImprovedSearch._search_single_engine given the outcome
of its fetch: any exception is caught and turned into an empty list; a
response parses its body when the response is truthy and has non-empty
text. -/
def searchSingleEngineMain (fetchRes : Except String Response) :
    List SearchResult :=
  match fetchRes with
  | Except.error _ => []
  | Except.ok resp =>
    if resp.status < 400 ∧ resp.text ≠ "" then mainParseResults resp.doc
    else []

/-- The collection loop of ImprovedSearch.search over completed engine
tasks in completion order: results accumulate and collection stops once
at least 5 results are gathered; a task that raised appends its message
to the error list. -/
def mainCollect (acc : List SearchResult) (errs : List String) :
    List (Except String (List SearchResult)) →
    List SearchResult × List String
  | [] => (acc, errs)
  | Except.ok cur :: ts =>
    let acc2 := acc ++ cur
    if 5 ≤ acc2.length then (acc2, errs) else mainCollect acc2 errs ts
  | Except.error e :: ts => mainCollect acc (errs ++ [e]) ts

/-- The cache-miss path of ImprovedSearch.search: collect task results,
return an empty list when nothing was collected and some task raised,
and otherwise rank, serialize (and write through to the cache, modelled
separately by saveToCache) and return. -/
def mainSearchCompute (now : Int) (query : String)
    (tasks : List (Except String (List SearchResult))) : List ResultDict :=
  let collected := mainCollect [] [] tasks
  if collected.1.isEmpty && !collected.2.isEmpty then []
  else (mainRankResults now query collected.1).map SearchResult.toDict

/-- Embedding of ImprovedSearch.search: a truthy cached payload is
returned as is, and otherwise the cache-miss path runs. The cached
argument is the value _get_from_cache returned for the query key. -/
def mainSearch (cached : Option (List ResultDict)) (now : Int)
    (query : String) (tasks : List (Except String (List SearchResult))) :
    List ResultDict :=
  match cached with
  | some c => if c.isEmpty then mainSearchCompute now query tasks else c
  | none => mainSearchCompute now query tasks

/-- ImprovedSearch.search with each engine task given by its fetch
outcome: _search_single_engine catches every exception, so every task
future resolves to a plain result list. The list order is the
as_completed completion order. -/
def mainSearchPipeline (cached : Option (List ResultDict)) (now : Int)
    (query : String) (engineFetches : List (Except String Response)) :
    List ResultDict :=
  mainSearch cached now query
    (engineFetches.map (fun fr => Except.ok (searchSingleEngineMain fr)))

/-- Embedding of AppleSearch.search: the dict cache (which has no
expiry) is consulted first; then the fetch outcome is handled inside the
try block, every exception yielding an empty list, an absent or falsy
response (requests truthiness is status below 400) yielding an empty
list, and a truthy response being parsed and ranked. -/
def appSearch (cache : List (String × List AppResult)) (query : String)
    (page : Nat) (fetchRes : Except String (Option Response)) :
    List AppResult :=
  let key := query ++ "_" ++ toString page
  match cache.lookup key with
  | some v => v
  | none =>
    match fetchRes with
    | Except.error _ => []
    | Except.ok none => []
    | Except.ok (some resp) =>
      if resp.status < 400 then
        appRank query (appParseResults resp.infoSrc resp.doc)
      else []

/-- Embedding of ImprovedSearch.get_suggestions. The cached argument is
the value _get_from_cache returned for the suggestion key; the Boolean
result records whether a network call was performed, which happens
exactly when the fetch is invoked. A query that is empty or shorter
than two characters returns the empty list immediately. -/
def mainGetSuggestions (query : String) (cached : Option (List String))
    (fetchRes : Except String Response) : List String × Bool :=
  if query = "" ∨ query.length < 2 then ([], false)
  else
    match cached with
    | some c =>
      if c.isEmpty then mainSuggestFetch fetchRes else (c, false)
    | none => mainSuggestFetch fetchRes
where
  /-- The fetch-and-parse tail of get_suggestions: exceptions give the
  empty list; a 200 response yields the parsed suggestion list, a json
  failure being caught as the empty list. -/
  mainSuggestFetch (fetchRes : Except String Response) :
      List String × Bool :=
    match fetchRes with
    | Except.error _ => ([], true)
    | Except.ok resp =>
      if resp.status == 200 then
        match resp.suggestData with
        | some l => (l, true)
        | none => ([], true)
      else ([], true)

/-- Embedding of AppleSearch.get_suggestions: there is no length guard
and no cache; the fetch is always invoked (max_retries is 5, so at
least one HTTP attempt is always made), hence the Boolean network-call
flag is true on every path. -/
def appGetSuggestions (query : String)
    (fetchRes : Except String (Option Response)) : List String × Bool :=
  match fetchRes with
  | Except.error _ => ([], true)
  | Except.ok none => ([], true)
  | Except.ok (some resp) =>
    if resp.status == 200 then
      match resp.suggestData with
      | some l => (l, true)
      | none => ([], true)
    else ([], true)

/-- Membership is preserved by stable descending insertion. -/
theorem mem_insertByScoreDesc {f : α → Int} {x a : α} {l : List α} :
    a ∈ insertByScoreDesc f x l ↔ a = x ∨ a ∈ l := by
  induction l with
  | nil => simp [insertByScoreDesc]
  | cons y ys ih =>
    simp only [insertByScoreDesc]
    by_cases hc : f y ≤ f x
    · rw [if_pos hc]; simp
    · rw [if_neg hc]
      simp only [List.mem_cons, ih]
      tauto

/-- Membership is preserved by the stable descending sort. -/
theorem mem_sortByScoreDesc {f : α → Int} {a : α} {l : List α} :
    a ∈ sortByScoreDesc f l ↔ a ∈ l := by
  induction l with
  | nil => simp [sortByScoreDesc]
  | cons y ys ih =>
    simp only [sortByScoreDesc, mem_insertByScoreDesc, ih, List.mem_cons]

/-- Stable descending insertion preserves the non-increasing-score
property. -/
theorem pairwise_insertByScoreDesc {f : α → Int} {x : α} {l : List α}
    (h : l.Pairwise (fun a b => f b ≤ f a)) :
    (insertByScoreDesc f x l).Pairwise (fun a b => f b ≤ f a) := by
  induction l with
  | nil => simp [insertByScoreDesc]
  | cons y ys ih =>
    rw [List.pairwise_cons] at h
    obtain ⟨hy, hys⟩ := h
    simp only [insertByScoreDesc]
    by_cases hc : f y ≤ f x
    · rw [if_pos hc]
      refine List.Pairwise.cons ?_ (List.Pairwise.cons hy hys)
      intro b hb
      rcases List.mem_cons.mp hb with rfl | hb2
      · exact hc
      · exact le_trans (hy b hb2) hc
    · rw [if_neg hc]
      refine List.Pairwise.cons ?_ (ih hys)
      intro b hb
      rcases mem_insertByScoreDesc.mp hb with rfl | hb2
      · omega
      · exact hy b hb2

/-- The stable descending sort yields non-increasing scores. -/
theorem pairwise_sortByScoreDesc (f : α → Int) (l : List α) :
    (sortByScoreDesc f l).Pairwise (fun a b => f b ≤ f a) := by
  induction l with
  | nil => simp [sortByScoreDesc]
  | cons y ys ih => exact pairwise_insertByScoreDesc ih

/-- Filtering by a predicate that pins the score commutes with stable
descending insertion: the skipped elements all have strictly larger
score, so none of them satisfies the predicate when the inserted
element does. -/
theorem filter_insertByScoreDesc {f : α → Int} {p : α → Bool}
    (hp : ∀ a b, p a = true → p b = true → f a = f b) (x : α) (l : List α) :
    (insertByScoreDesc f x l).filter p =
      if p x then x :: l.filter p else l.filter p := by
  induction l with
  | nil => simp [insertByScoreDesc, List.filter_cons]
  | cons y ys ih =>
    simp only [insertByScoreDesc]
    by_cases hc : f y ≤ f x
    · rw [if_pos hc, List.filter_cons]
    · rw [if_neg hc, List.filter_cons, ih]
      cases hx : p x with
      | true =>
        cases hy : p y with
        | true => exact absurd (hp x y hx hy) (by omega)
        | false => simp [List.filter_cons, hx, hy]
      | false => simp [List.filter_cons, hx]

/-- Stability of the descending sort: the subsequence of elements on
which a score-pinning predicate holds is unchanged by sorting. -/
theorem filter_sortByScoreDesc {f : α → Int} {p : α → Bool}
    (hp : ∀ a b, p a = true → p b = true → f a = f b) (l : List α) :
    (sortByScoreDesc f l).filter p = l.filter p := by
  induction l with
  | nil => simp [sortByScoreDesc]
  | cons y ys ih =>
    simp only [sortByScoreDesc]
    rw [filter_insertByScoreDesc hp, ih, List.filter_cons]

/-- The categorization loop returns general or the label of one of its
table entries. -/
theorem firstMatchingCategory_mem (domain text : String) :
    ∀ table : List (String × List String),
    firstMatchingCategory domain text table ∈ "general" :: table.map Prod.fst
  | [] => by simp [firstMatchingCategory]
  | (c, kws) :: rest => by
    simp only [firstMatchingCategory]
    split
    · simp
    · have := firstMatchingCategory_mem domain text rest
      simp only [List.map_cons, List.mem_cons] at this ⊢
      tauto

/-- When no keyword of the table matches, the categorization loop
returns general. -/
theorem firstMatchingCategory_noMatch (domain text : String) :
    ∀ table : List (String × List String),
    noCategoryMatch domain text table = true →
    firstMatchingCategory domain text table = "general"
  | [], _ => rfl
  | (c, kws) :: rest, h => by
    simp only [noCategoryMatch, List.all_cons, Bool.and_eq_true] at h
    obtain ⟨h1, h2⟩ := h
    simp only [firstMatchingCategory]
    rw [if_neg ?_]
    · exact firstMatchingCategory_noMatch domain text rest h2
    · intro hany
      rw [List.any_eq_true] at hany
      obtain ⟨k, hk, hkt⟩ := hany
      rw [List.all_eq_true] at h1
      have hnone := h1 k hk
      simp only [Bool.and_eq_true, Bool.not_eq_true'] at hnone
      simp only [Bool.or_eq_true] at hkt
      rcases hkt with hd | ht
      · rw [hnone.1] at hd; cases hd
      · rw [hnone.2] at ht; cases ht

/-- C6: categorize is a deterministic pure function: two calls with the
same arguments yield the same category; the category is always a member
of the fixed enumeration news, shopping, social, video, academic,
official, forums, tech, general; and when no keyword matches the result
is general. Stated for both ImprovedSearch._categorize_result (which
reads url, title and snippet) and AppleSearch._categorize_result (which
reads url and title). -/
theorem categorize_deterministic_enum_general (url title snippet : String) :
    mainCategorize url title snippet = mainCategorize url title snippet
    ∧ mainCategorize url title snippet ∈ categoryEnum
    ∧ appCategorize url title ∈ categoryEnum
    ∧ (noCategoryMatch (strLower (urlparseNetloc url))
        (strLower title ++ " " ++ strLower snippet) mainCategoryKeywords = true →
        mainCategorize url title snippet = "general")
    ∧ (noCategoryMatch (strLower (urlparseNetloc url)) (strLower title)
        appCategoryKeywords = true →
        appCategorize url title = "general") := by
  refine ⟨rfl, ?_, ?_, ?_, ?_⟩
  · have h := firstMatchingCategory_mem (strLower (urlparseNetloc url))
      (strLower title ++ " " ++ strLower snippet) mainCategoryKeywords
    have hsub : ∀ x ∈ ("general" :: mainCategoryKeywords.map Prod.fst),
        x ∈ categoryEnum := by decide
    exact hsub _ h
  · have h := firstMatchingCategory_mem (strLower (urlparseNetloc url))
      (strLower title) appCategoryKeywords
    have hsub : ∀ x ∈ ("general" :: appCategoryKeywords.map Prod.fst),
        x ∈ categoryEnum := by decide
    exact hsub _ h
  · exact firstMatchingCategory_noMatch _ _ _
  · exact firstMatchingCategory_noMatch _ _ _

/-- Witness for C6 at a concrete input on which no keyword matches. -/
theorem categorize_deterministic_enum_general_witness :
    mainCategorize "http://example.com" "hello" "world" = "general"
    ∧ appCategorize "http://example.com" "hello" = "general" :=
  ⟨(categorize_deterministic_enum_general "http://example.com" "hello"
      "world").2.2.2.1 (by decide),
   (categorize_deterministic_enum_general "http://example.com" "hello"
      "world").2.2.2.2 (by decide)⟩

/-- Deleting a key from the in-memory cache removes its binding. -/
theorem lookup_cacheErase {α : Type} (c : MemCache α) (key : String) :
    (cacheErase c key).lookup key = none := by
  induction c with
  | nil => rfl
  | cons e es ih =>
    obtain ⟨k, v⟩ := e
    by_cases h : k = key
    · subst h
      simpa [cacheErase, List.filter_cons] using ih
    · simp only [cacheErase, List.filter_cons] at ih ⊢
      rw [if_pos (by simpa using h), List.lookup_cons]
      have hbe : (key == k) = false := by
        simp only [beq_eq_false_iff_ne]
        exact fun hh => h hh.symm
      rw [hbe]
      exact ih

/-- C5: cache round trip on the in-memory store of ImprovedSearch:
after set(key, payload, ttl) at time now, a get(key) strictly before
the expiry now + ttl returns the stored payload, and a get(key) at or
after the expiry returns absent and purges the entry on that read. -/
theorem cache_roundtrip {α : Type} (c : MemCache α) (key : String) (data : α)
    (now ttl t : Int) :
    (t < now + ttl →
      (getFromCache (saveToCache c key data now ttl) key t).1 = some data)
    ∧ (now + ttl ≤ t →
      (getFromCache (saveToCache c key data now ttl) key t).1 = none
      ∧ ((getFromCache (saveToCache c key data now ttl) key t).2.lookup key)
          = none) := by
  constructor
  · intro h
    simp only [getFromCache, saveToCache, List.lookup_cons_self]
    rw [if_pos h]
  · intro h
    simp only [getFromCache, saveToCache, List.lookup_cons_self]
    rw [if_neg (by omega)]
    exact ⟨rfl, lookup_cacheErase _ _⟩

/-- Witness for C5 at concrete key, payload, ttl and read times. -/
theorem cache_roundtrip_witness :
    (getFromCache (saveToCache ([] : MemCache Nat) "k" 7 0 10) "k" 5).1
        = some 7
    ∧ ((getFromCache (saveToCache ([] : MemCache Nat) "k" 7 0 10) "k" 10).1
        = none
      ∧ ((getFromCache (saveToCache ([] : MemCache Nat) "k" 7 0 10)
          "k" 10).2.lookup "k") = none) :=
  ⟨(cache_roundtrip [] "k" 7 0 10 5).1 (by decide),
   (cache_roundtrip [] "k" 7 0 10 10).2 (by decide)⟩

/-- A response value carrying only a status, used for concrete fetch
scenarios. -/
def mkStatusResponse (s : Nat) : Response :=
  { status := s, text := "", doc := [], infoSrc := none, suggestData := none }

/-- When every attempt outcome is a non-200 response, the ImprovedSearch
fetch loop ends by raising the generic exception: no attempt succeeds
and no network error is recorded. -/
theorem mainFetchGo_pureNon200 (msg : String) :
    ∀ attempts : List Attempt, (∀ a ∈ attempts, attemptIsNon200 a = true) →
    mainFetchGo msg attempts none = Except.error msg
  | [], _ => rfl
  | Attempt.resp r :: rest, h => by
    have hr := h _ (List.mem_cons_self _ _)
    simp only [attemptIsNon200, bne_iff_ne, ne_eq] at hr
    simp only [mainFetchGo]
    rw [if_neg (by simpa using hr)]
    exact mainFetchGo_pureNon200 msg rest
      (fun a ha => h a (List.mem_cons_of_mem _ ha))
  | Attempt.exn e :: rest, h => by
    have := h _ (List.mem_cons_self _ _)
    simp [attemptIsNon200] at this

/-- When every attempt outcome is a non-200 response, the AppleSearch
fetch loop falls through and returns None. -/
theorem appFetchGo_pureNon200 :
    ∀ attempts : List Attempt, (∀ a ∈ attempts, attemptIsNon200 a = true) →
    appFetchGo attempts = Except.ok none
  | [], _ => rfl
  | Attempt.resp r :: rest, h => by
    have hr := h _ (List.mem_cons_self _ _)
    simp only [attemptIsNon200, bne_iff_ne, ne_eq] at hr
    simp only [appFetchGo]
    rw [if_neg (by simpa using hr)]
    exact appFetchGo_pureNon200 rest (fun a ha => h a (List.mem_cons_of_mem _ ha))
  | Attempt.exn e :: rest, h => by
    have := h _ (List.mem_cons_self _ _)
    simp [attemptIsNon200] at this

/-- An error surfaced by the AppleSearch fetch loop always originates
from a network-level exception among the attempts. -/
theorem appFetchGo_error_mem :
    ∀ (as : List Attempt) (e : String),
    appFetchGo as = Except.error e → Attempt.exn e ∈ as
  | [], e, h => by simp [appFetchGo] at h
  | Attempt.resp r :: rest, e, h => by
    simp only [appFetchGo] at h
    by_cases hs : (r.status == 200) = true
    · rw [if_pos hs] at h; cases h
    · rw [if_neg hs] at h
      exact List.mem_cons_of_mem _ (appFetchGo_error_mem rest e h)
  | Attempt.exn m :: rest, e, h => by
    simp only [appFetchGo] at h
    by_cases he : rest.isEmpty
    · rw [if_pos he] at h
      cases h
      exact List.mem_cons_self _ _
    · rw [if_neg he] at h
      exact List.mem_cons_of_mem _ (appFetchGo_error_mem rest e h)

/-- C2 counterexample: with two planned attempts that are both non-200
HTTP responses and no network-level exception,
ImprovedSearch._fetch_with_retry raises an exception instead of
returning an absent response, contradicting the claim for that fetcher. -/
theorem mainFetch_pureNon200_raises_cex :
    (∀ a ∈ [Attempt.resp (mkStatusResponse 500),
            Attempt.resp (mkStatusResponse 404)], attemptIsNon200 a = true)
    ∧ mainFetchWithRetry "https://www.google.com/search"
        [Attempt.resp (mkStatusResponse 500), Attempt.resp (mkStatusResponse 404)]
      = Except.error
          "Failed to fetch https://www.google.com/search after 2 attempts" := by
  constructor
  · decide
  · rfl

/-- C2 as amended: AppleSearch._fetch_with_retry returns None (no
response, no exception) when every failure is a non-200 status, and
surfaces an error only when a network-level exception occurred on some
attempt; ImprovedSearch._fetch_with_retry instead raises on exhaustion
even when every failure is a non-200 status, using a generic exception
message. -/
theorem fetch_exhaustion_behavior (url : String) (attempts : List Attempt)
    (h : ∀ a ∈ attempts, attemptIsNon200 a = true) :
    appFetchWithRetry attempts = Except.ok none
    ∧ mainFetchWithRetry url attempts
        = Except.error ("Failed to fetch " ++ url ++ " after " ++
            toString attempts.length ++ " attempts")
    ∧ (∀ (as : List Attempt) (e : String),
        appFetchWithRetry as = Except.error e → Attempt.exn e ∈ as) :=
  ⟨appFetchGo_pureNon200 attempts h,
   mainFetchGo_pureNon200 _ attempts h,
   appFetchGo_error_mem⟩

/-- Witness for C2 as amended at a concrete attempts list. -/
theorem fetch_exhaustion_behavior_witness :
    appFetchWithRetry [Attempt.resp (mkStatusResponse 500)] = Except.ok none :=
  (fetch_exhaustion_behavior "https://www.google.com/search"
    [Attempt.resp (mkStatusResponse 500)] (by decide)).1

/-- AppleSearch.get_suggestions invokes the fetcher on every path, so a
network call is always performed. -/
theorem appGetSuggestions_always_fetches (q : String)
    (g : Except String (Option Response)) :
    (appGetSuggestions q g).2 = true := by
  rcases g with e | o
  · rfl
  · rcases o with _ | r
    · rfl
    · simp only [appGetSuggestions]
      by_cases hs : (r.status == 200) = true
      · rw [if_pos hs]
        rcases hr : r.suggestData with _ | l <;> simp [hr]
      · rw [if_neg hs]

/-- C9 counterexample: the single-character query has length below two,
yet AppleSearch.get_suggestions performs a network call, contradicting
the claim for that implementation. -/
theorem appSuggestions_shortQuery_fetches_cex :
    ("a".length < 2) ∧ (appGetSuggestions "a" (Except.ok none)).2 = true :=
  ⟨by decide, rfl⟩

/-- C9 as amended: for every query shorter than two characters,
ImprovedSearch.get_suggestions returns an empty sequence immediately
without performing any network call; AppleSearch.get_suggestions has no
length guard and performs a network call for every query. -/
theorem suggestions_shortQuery_behavior (query : String)
    (cached : Option (List String)) (f : Except String Response)
    (g : Except String (Option Response)) (h : query.length < 2) :
    mainGetSuggestions query cached f = ([], false)
    ∧ (appGetSuggestions query g).2 = true := by
  constructor
  · simp only [mainGetSuggestions]
    rw [if_pos (Or.inr h)]
  · exact appGetSuggestions_always_fetches query g

/-- Witness for C9 as amended at the single-character query. -/
theorem suggestions_shortQuery_behavior_witness :
    mainGetSuggestions "a" none (Except.error "down") = ([], false)
    ∧ (appGetSuggestions "a" (Except.ok none)).2 = true :=
  suggestions_shortQuery_behavior "a" none (Except.error "down")
    (Except.ok none) (by decide)

/-- C7 counterexample: a container with a heading and a non-empty href
but no snippet container is skipped by ImprovedSearch._parse_results
instead of being emitted with an empty snippet, contradicting the claim
for that parser. -/
theorem mainParse_absentSnippet_rejected_cex :
    mainParseCandidate
      { titleText := some "Title", href := some "http://example.com/a",
        snippetText := none, dateText := none } = none := by decide

/-- C7 as amended: for every organic-result container with a title and a
non-empty URL and an absent snippet, AppleSearch._parse_results emits
the result with an empty-string snippet, while
ImprovedSearch._parse_results rejects the candidate because its guard
additionally requires a non-empty snippet. -/
theorem parser_absentSnippet_behavior (c : Container) (title url : String)
    (ht : c.titleText = some title) (hu : c.href = some url) (hne : url ≠ "")
    (hs : c.snippetText = none) :
    (∃ r : AppResult, appParseCandidate c = some r ∧ r.snippet = ""
      ∧ r.type = "regular")
    ∧ mainParseCandidate c = none := by
  obtain ⟨tf, hf, sf, df⟩ := c
  simp only at ht hu hs
  subst ht; subst hu; subst hs
  constructor
  · refine ⟨{ type := "regular", title := title, description := "",
              imageUrl := none, url := url,
              display_url := displayUrlOf url,
              snippet := "", favicon := faviconOf url,
              category := appCategorize url title, date := df,
              score := 0 },
      ?_, rfl, rfl⟩
    simp only [appParseCandidate]
    rw [if_neg hne]
    rfl
  · simp only [mainParseCandidate]
    rw [if_neg hne]
    simp

/-- A concrete snippetless container for the C7 witness. -/
def demoNoSnippetContainer : Container :=
  { titleText := some "T", href := some "http://e.com",
    snippetText := none, dateText := none }

/-- Witness for C7 as amended at a concrete container. -/
theorem parser_absentSnippet_behavior_witness :
    (∃ r : AppResult, appParseCandidate demoNoSnippetContainer = some r
      ∧ r.snippet = "" ∧ r.type = "regular")
    ∧ mainParseCandidate demoNoSnippetContainer = none :=
  parser_absentSnippet_behavior demoNoSnippetContainer "T" "http://e.com"
    rfl rfl (by decide) rfl

/-- C8 counterexample: with query x y, a result whose snippet is exactly
the query phrase scores the same in ImprovedSearch._rank_results as the
same result with the terms reversed (phrase absent, equal per-term
hits): that ranker has no exact-phrase-in-snippet signal, so no result
receives 10 points for it, contradicting the claim for that ranker. -/
theorem mainRanker_noPhraseBonus_cex :
    strContains (strLower "x y") (strLower "x y") = true
    ∧ strContains (strLower "y x") (strLower "x y") = false
    ∧ ((pySplit (strLower "x y")).filter
        (fun w => strContains (strLower "x y") w)).length
      = ((pySplit (strLower "x y")).filter
        (fun w => strContains (strLower "y x") w)).length
    ∧ computeMainScore 0 "x y"
        { title := "", url := "", snippet := "x y", category := "",
          date := none, favicon := "", score := 0 }
      ≠ computeMainScore 0 "x y"
        { title := "", url := "", snippet := "y x", category := "",
          date := none, favicon := "", score := 0 } + 10 := by decide

/-- C8 as amended: for any two results identical except for the snippet,
where the lowercased query is a substring of the first lowercased
snippet but not of the second and the per-term snippet hits coincide,
the AppleSearch ranker scores the first exactly 10 points higher (the
exact-phrase-in-snippet signal), while the ImprovedSearch ranker scores
them identically, having no such signal. -/
theorem snippet_phrase_signal (now : Int) (q : String) (ra : AppResult)
    (rm : SearchResult) (s1 s2 : String)
    (h1 : strContains (strLower s1) (strLower q) = true)
    (h2 : strContains (strLower s2) (strLower q) = false)
    (ha : ((pySplit (strLower q)).filter
        (fun w => strContains (strLower s1) w)).length
      = ((pySplit (strLower q)).filter
        (fun w => strContains (strLower s2) w)).length) :
    computeAppScore q { ra with snippet := s1 }
      = computeAppScore q { ra with snippet := s2 } + 10
    ∧ computeMainScore now q { rm with snippet := s1 }
      = computeMainScore now q { rm with snippet := s2 } := by
  constructor
  · simp only [computeAppScore, h1, h2, ha]
    norm_num
    ring
  · simp only [computeMainScore, ha]

/-- Witness for C8 as amended at concrete query, results and snippets. -/
theorem snippet_phrase_signal_witness :
    computeAppScore "x y"
      { type := "regular", title := "", description := "", imageUrl := none,
        url := "", display_url := "", snippet := "x y", favicon := "",
        category := "", date := none, score := 0 }
    = computeAppScore "x y"
      { type := "regular", title := "", description := "", imageUrl := none,
        url := "", display_url := "", snippet := "y x", favicon := "",
        category := "", date := none, score := 0 } + 10 :=
  (snippet_phrase_signal 0 "x y"
    { type := "regular", title := "", description := "", imageUrl := none,
      url := "", display_url := "", snippet := "", favicon := "",
      category := "", date := none, score := 0 }
    { title := "", url := "", snippet := "", category := "", date := none,
      favicon := "", score := 0 }
    "x y" "y x" (by decide) (by decide) (by decide)).1

/-- Every output of the cache-miss path of ImprovedSearch.search has
type regular: serialization hard-codes the field. -/
theorem mainSearchCompute_allRegular (now : Int) (query : String)
    (tasks : List (Except String (List SearchResult))) :
    ∀ d ∈ mainSearchCompute now query tasks, d.type = "regular" := by
  intro d hd
  simp only [mainSearchCompute] at hd
  split at hd
  · simp at hd
  · rw [List.mem_map] at hd
    obtain ⟨r, _, rfl⟩ := hd
    rfl

/-- C10: every result record returned by ImprovedSearch.search has type
regular, provided every cached payload entry does (cached payloads are
previous outputs of the same function): the main.py parser only ever
builds plain SearchResult records and to_dict hard-codes the type field
to regular, so a caller of this pipeline never observes an info box. -/
theorem mainSearch_allRegular (cached : Option (List ResultDict)) (now : Int)
    (query : String) (tasks : List (Except String (List SearchResult)))
    (hc : ∀ l, cached = some l → ∀ d ∈ l, d.type = "regular") :
    ∀ d ∈ mainSearch cached now query tasks, d.type = "regular" := by
  intro d hd
  match cached with
  | none => exact mainSearchCompute_allRegular now query tasks d hd
  | some c =>
    simp only [mainSearch] at hd
    by_cases hce : c.isEmpty
    · rw [if_pos hce] at hd
      exact mainSearchCompute_allRegular now query tasks d hd
    · rw [if_neg hce] at hd
      exact hc c rfl d hd

/-- A concrete serialized regular result for the C10 witness. -/
def demoRegularDict : ResultDict :=
  { title := "T", url := "u", display_url := "u", snippet := "s",
    category := "general", date := none, favicon := "f", score := 0,
    type := "regular" }

/-- Witness for C10 on the cache-hit path at a concrete cached payload. -/
theorem mainSearch_allRegular_witness : demoRegularDict.type = "regular" :=
  mainSearch_allRegular (some [demoRegularDict]) 0 "q" []
    (by intro l hl d hd; cases hl; simp at hd; subst hd; rfl)
    demoRegularDict (by decide)

/-- Every element of the info-box part of the ranked output has type
info_box. -/
theorem mem_appRank_infoPart (q : String) (rs : List AppResult) :
    ∀ a ∈ (appScored q rs).filter (fun r => r.type == "info_box"),
    a.type = "info_box" := by
  intro a ha
  simpa using (List.mem_filter.mp ha).2

/-- Every element of the sorted regular part of the ranked output has
type regular. -/
theorem mem_appRank_regularPart (q : String) (rs : List AppResult) :
    ∀ b ∈ sortByScoreDesc AppResult.score
      ((appScored q rs).filter (fun r => r.type == "regular")),
    b.type = "regular" := by
  intro b hb
  simpa using (List.mem_filter.mp (mem_sortByScoreDesc.mp hb)).2

/-- C4: for every input list containing at least one info-box record,
every info-box record precedes every regular record in the output of
AppleSearch._rank_results, regardless of the scores of the regular
records: no ordered pair of the output consists of a regular record
followed by an info-box record. -/
theorem infoBox_precedes_regular (q : String) (rs : List AppResult)
    (h : ∃ r ∈ rs, r.type = "info_box") :
    (appRank q rs).Pairwise
      (fun a b => ¬(a.type = "regular" ∧ b.type = "info_box")) := by
  clear h
  simp only [appRank]
  rw [List.pairwise_append]
  refine ⟨?_, ?_, ?_⟩
  · apply List.pairwise_of_forall_mem_list
    intro a ha b _
    intro hcon
    exact absurd ((mem_appRank_infoPart q rs a ha).symm.trans hcon.1)
      (by decide)
  · apply List.pairwise_of_forall_mem_list
    intro a _ b hb
    intro hcon
    exact absurd ((mem_appRank_regularPart q rs b hb).symm.trans hcon.2)
      (by decide)
  · intro a ha b _
    intro hcon
    exact absurd ((mem_appRank_infoPart q rs a ha).symm.trans hcon.1)
      (by decide)

/-- A concrete info-box record for the C4 witness. -/
def demoInfoBox : AppResult :=
  { type := "info_box", title := "i", description := "d", imageUrl := none,
    url := "", display_url := "", snippet := "", favicon := "",
    category := "", date := none, score := 0 }

/-- A concrete regular record for the C4 witness. -/
def demoRegular : AppResult :=
  { type := "regular", title := "t", description := "", imageUrl := none,
    url := "http://e.com", display_url := "http://e.com", snippet := "s",
    favicon := "f", category := "general", date := none, score := 0 }

/-- Witness for C4 at a concrete result list holding an info box after a
regular record. -/
theorem infoBox_precedes_regular_witness :
    (appRank "q" [demoRegular, demoInfoBox]).Pairwise
      (fun a b => ¬(a.type = "regular" ∧ b.type = "info_box")) :=
  infoBox_precedes_regular "q" [demoRegular, demoInfoBox]
    ⟨demoInfoBox, by decide, rfl⟩

/-- C3: for every query and input list, ranking sorts the regular
results descending by score as a stable sort: the scores along the
output are non-increasing, and for every score value the subsequence of
results carrying that score equals the corresponding subsequence of the
scored input in its original (parser emission) order. Stated for
ImprovedSearch._rank_results (which sorts all results, all being
regular in that pipeline) and for the regular part of
AppleSearch._rank_results. -/
theorem rank_stable_sort (now : Int) (q : String) (rs : List SearchResult)
    (ars : List AppResult) (s : Int) :
    (mainRankResults now q rs).Pairwise (fun a b => b.score ≤ a.score)
    ∧ (mainRankResults now q rs).filter (fun r => r.score == s)
        = (mainScored now q rs).filter (fun r => r.score == s)
    ∧ ((appRank q ars).filter (fun r => r.type == "regular")).Pairwise
        (fun a b => b.score ≤ a.score)
    ∧ (appRank q ars).filter (fun r => r.type == "regular" && r.score == s)
        = (appScored q ars).filter
            (fun r => r.type == "regular" && r.score == s) := by
  have hpin1 : ∀ a b : SearchResult,
      (a.score == s) = true → (b.score == s) = true → a.score = b.score := by
    intro a b hx hy
    rw [beq_iff_eq] at hx hy
    rw [hx, hy]
  have hpin2 : ∀ a b : AppResult,
      (a.type == "regular" && a.score == s) = true →
      (b.type == "regular" && b.score == s) = true → a.score = b.score := by
    intro a b hx hy
    rw [Bool.and_eq_true] at hx hy
    rw [beq_iff_eq.mp hx.2, beq_iff_eq.mp hy.2]
  have hinfoNil : ∀ p : AppResult → Bool,
      (∀ r : AppResult, r.type = "info_box" → p r = false) →
      ((appScored q ars).filter (fun r => r.type == "info_box")).filter p
        = [] := by
    intro p hp
    rw [List.filter_eq_nil_iff]
    intro a ha
    have h2 : a.type = "info_box" := mem_appRank_infoPart q ars a ha
    rw [hp a h2]
    exact Bool.false_ne_true
  refine ⟨pairwise_sortByScoreDesc _ _, filter_sortByScoreDesc hpin1 _,
    ?_, ?_⟩
  · have hfilter : (appRank q ars).filter (fun r => r.type == "regular")
        = sortByScoreDesc AppResult.score
            ((appScored q ars).filter (fun r => r.type == "regular")) := by
      simp only [appRank]
      rw [List.filter_append]
      rw [hinfoNil (fun r => r.type == "regular")
        (fun r hr => by simp [hr]), List.nil_append]
      rw [List.filter_eq_self.mpr
        (fun a ha => by simp [mem_appRank_regularPart q ars a ha])]
    rw [hfilter]
    exact pairwise_sortByScoreDesc _ _
  · simp only [appRank]
    rw [List.filter_append]
    rw [hinfoNil (fun r => r.type == "regular" && r.score == s)
      (fun r hr => by simp [hr]), List.nil_append]
    rw [filter_sortByScoreDesc hpin2, List.filter_filter]
    apply List.filter_congr
    intro a _
    cases h1 : (a.type == "regular") <;> cases h2 : (a.score == s) <;> rfl

/-- When every task resolves to an empty result list, the collection
loop of ImprovedSearch.search gathers nothing and records no error. -/
theorem mainCollect_allEmpty :
    ∀ ts : List (Except String (List SearchResult)),
    (∀ t ∈ ts, t = Except.ok ([] : List SearchResult)) →
    mainCollect [] [] ts = ([], [])
  | [], _ => rfl
  | t :: ts, h => by
    have ht := h t (List.mem_cons_self _ _)
    subst ht
    simp only [mainCollect, List.append_nil]
    rw [if_neg (by decide)]
    exact mainCollect_allEmpty ts (fun a ha => h a (List.mem_cons_of_mem _ ha))

/-- C1: for every query and page, when all backend fetches fail and zero
results were collected, search returns an empty sequence to the caller
and does not raise (both search embeddings are total functions whose
exception-absorbing branches are explicit): stated for
ImprovedSearch.search with every engine fetch raising, and for
AppleSearch.search with its fetch either raising or returning None. -/
theorem search_totalFailure_returnsEmpty
    (cached : Option (List ResultDict)) (now : Int) (query : String)
    (engineFetches : List (Except String Response))
    (appCache : List (String × List AppResult)) (q2 : String) (page : Nat)
    (appFetch : Except String (Option Response))
    (hmiss : cached = none ∨ cached = some [])
    (hfail : ∀ fr ∈ engineFetches, ∃ e, fr = Except.error e)
    (hmiss2 : appCache.lookup (q2 ++ "_" ++ toString page) = none)
    (hfail2 : (∃ e, appFetch = Except.error e) ∨ appFetch = Except.ok none) :
    mainSearchPipeline cached now query engineFetches = []
    ∧ appSearch appCache q2 page appFetch = [] := by
  constructor
  · have htasks : ∀ t ∈ engineFetches.map
        (fun fr => (Except.ok (searchSingleEngineMain fr) :
          Except String (List SearchResult))),
        t = Except.ok ([] : List SearchResult) := by
      intro t ht
      rw [List.mem_map] at ht
      obtain ⟨fr, hfr, rfl⟩ := ht
      obtain ⟨e, rfl⟩ := hfail fr hfr
      rfl
    have hcompute : mainSearchCompute now query
        (engineFetches.map (fun fr =>
          (Except.ok (searchSingleEngineMain fr) :
            Except String (List SearchResult))))
        = [] := by
      simp only [mainSearchCompute, mainCollect_allEmpty _ htasks]
      rfl
    simp only [mainSearchPipeline, mainSearch]
    rcases hmiss with rfl | rfl
    · exact hcompute
    · simpa using hcompute
  · simp only [appSearch, hmiss2]
    rcases hfail2 with ⟨e, rfl⟩ | rfl <;> rfl

/-- Witness for C1 at concrete failing fetches and an empty cache. -/
theorem search_totalFailure_returnsEmpty_witness :
    mainSearchPipeline none 0 "q" [Except.error "boom"] = []
    ∧ appSearch [] "apple" 1 (Except.ok none) = [] :=
  search_totalFailure_returnsEmpty none 0 "q" [Except.error "boom"]
    [] "apple" 1 (Except.ok none) (Or.inl rfl)
    (by intro fr hfr
        simp only [List.mem_singleton] at hfr
        subst hfr
        exact ⟨"boom", rfl⟩)
    rfl (Or.inr rfl)
